import Mathlib

/-!
Shallow embedding of the `short-form` video service
(`src/video/video.service.ts`, `src/video/video.controller.ts`).

The object store is modelled as an association list from keys to object
contents; JavaScript strings are Lean `String`s; the `Date` is modelled by
its observable components used by the code (`getFullYear`, `getMonth`,
and the instant itself, since `toISOString`/`getTime` are order-isomorphic
views of the same instant: `uploadDate` is carried as the epoch-millis
natural number that `new Date(s).getTime()` recovers from the stored
ISO-8601 string).  `JSON.parse` of a downloaded object is modelled by
classifying each stored content as either a valid record or a corrupt
blob carrying the parse-error message (the message of the `SyntaxError`
that `JSON.parse` raises, which is a function of the bytes only).
-/

namespace ShortForm

/-- Character class of the JavaScript regular-expression escape `\s`
(whitespace), as used by `replace(/\s+/g, '-')` in `sanitizeFileName`. -/
def isJsSpace (c : Char) : Bool :=
  let n := c.toNat
  n == 9 || n == 10 || n == 11 || n == 12 || n == 13 || n == 32 ||
  n == 0xa0 || n == 0x1680 || (0x2000 ≤ n && n ≤ 0x200a) ||
  n == 0x2028 || n == 0x2029 || n == 0x202f || n == 0x205f ||
  n == 0x3000 || n == 0xfeff

/-- Character class kept by `replace(/[^a-zA-Z0-9가-힣\s-]/g, '')`:
ASCII letters and digits, the Hangul syllable block U+AC00..U+D7A3,
whitespace, and the hyphen. -/
def isAllowedChar (c : Char) : Bool :=
  let n := c.toNat
  (97 ≤ n && n ≤ 122) || (65 ≤ n && n ≤ 90) || (48 ≤ n && n ≤ 57) ||
  (0xac00 ≤ n && n ≤ 0xd7a3) || isJsSpace c || n == 45

/-- ASCII lower-casing of one character.  `toLowerCase` is applied by the
code only after the whitelist filter, whose alphabet is unaffected by
Unicode case mapping outside A–Z, so the ASCII mapping is faithful there. -/
def jsLowerChar (c : Char) : Char :=
  if 65 ≤ c.toNat && c.toNat ≤ 90 then Char.ofNat (c.toNat + 32) else c

/-- Replacement of every maximal run of whitespace by a single hyphen,
the effect of `replace(/\s+/g, '-')`.  The boolean records whether the
previous character belonged to a run already replaced. -/
def collapseWsAux (inRun : Bool) : List Char → List Char
  | [] => []
  | c :: cs =>
    if isJsSpace c then
      if inRun then collapseWsAux true cs
      else '-' :: collapseWsAux true cs
    else c :: collapseWsAux false cs

/-- `VideoService.sanitizeFileName`: strip characters outside the
whitelist, collapse whitespace runs to single hyphens, lower-case. -/
def sanitizeFileName (title : String) : String :=
  ⟨(collapseWsAux false (title.data.filter isAllowedChar)).map jsLowerChar⟩

/-- Split on a single separator character, the semantics of JavaScript
`String.prototype.split` with a one-character separator ('`""`' input
yields `[""]`, adjacent separators yield empty segments). -/
def jsSplitCharAux (sep : Char) (cur : List Char) : List Char → List (List Char)
  | [] => [cur.reverse]
  | c :: cs =>
    if c == sep then cur.reverse :: jsSplitCharAux sep [] cs
    else jsSplitCharAux sep (c :: cur) cs

/-- JavaScript `s.split(sep)` for a one-character separator. -/
def jsSplitChar (sep : Char) (s : String) : List String :=
  (jsSplitCharAux sep [] s.data).map (fun l => ⟨l⟩)

/-- JavaScript `String.prototype.trim`: drop whitespace from both ends. -/
def jsTrim (s : String) : String :=
  ⟨((s.data.dropWhile isJsSpace).reverse.dropWhile isJsSpace).reverse⟩

/-- ASCII model of `String.prototype.toLowerCase`. -/
def jsLowerString (s : String) : String :=
  ⟨s.data.map jsLowerChar⟩

/-- `VideoService.getFileExtension`:
`filename.split('.').pop()?.toLowerCase() || 'mp4'`.  `split` never
returns an empty array, so `pop` is its last element; the empty string is
falsy and falls back to `"mp4"`. -/
def getFileExtension (filename : String) : String :=
  let lowered := jsLowerString ((jsSplitChar '.' filename).getLastD "")
  if lowered = "" then "mp4" else lowered

/-- `String(n).padStart(2, '0')` for the month number. -/
def pad2 (n : Nat) : String :=
  let s := toString n
  if s.length < 2 then "0" ++ s else s

/-- Runtime value of the `tags` field of the upload DTO: TypeScript
declares `string[]`, but the request may deliver a single comma-joined
string, which is exactly what `uploadVideo` tests for with `typeof`. -/
inductive TagsField where
  | str (s : String)
  | arr (l : List String)
deriving DecidableEq, Repr

/-- `UploadVideoDto`: the mutable DTO handed to `uploadVideo`.  Optional
fields absent from the request are `none` (JavaScript `undefined`). -/
structure UploadVideoDto where
  title : String
  description : Option String
  tags : Option TagsField
  category : Option String
deriving DecidableEq, Repr

/-- `VideoMetadata`: the record built by `uploadVideo` and stored as the
metadata JSON object.  `uploadDate` is the epoch-millis view of the
ISO-8601 string (see the header comment). -/
structure VideoMetadata where
  title : String
  description : String
  tags : List String
  category : String
  uploadDate : Nat
  fileSize : Nat
  format : String
  videoUrl : String
  publicUrl : String
  duration : Option String
  resolution : Option String
  thumbnailUrl : Option String
deriving DecidableEq, Repr

/-- The uploaded file as delivered by Multer: `originalname`,
`mimetype`, `size`, and the (opaque) byte buffer. -/
structure FileUpload where
  originalname : String
  mimetype : String
  size : Nat
  buffer : String
deriving DecidableEq, Repr

/-- The current wall-clock instant as observed by the code:
`getFullYear()`, the zero-based `getMonth()`, and the instant itself
(for `toISOString` / timestamp purposes). -/
structure JsNow where
  year : Nat
  monthIndex : Nat
  time : Nat
deriving DecidableEq, Repr

/-- The tags-normalization step at the top of `uploadVideo`:
`if (metadata.tags && typeof metadata.tags === 'string')` — a truthy
(nonempty) string is split on commas and each segment trimmed; anything
else (including the falsy empty string) is left untouched. -/
def normalizeTags : Option TagsField → Option TagsField
  | some (.str s) =>
    if s = "" then some (.str s)
    else some (.arr ((jsSplitChar ',' s).map jsTrim))
  | t => t

/-- The `metadata.tags || []` default used when assembling the record.
After `normalizeTags` the string case can only carry the falsy empty
string, which `||` replaces by `[]`. -/
def tagsOrEmpty : Option TagsField → List String
  | some (.arr l) => l
  | _ => []

/-- Object contents written by `uploadVideo`: the binary blob (with its
content type and the object-level metadata `{title, uploadDate}`), or the
pretty-printed metadata JSON, identified by the record it serializes. -/
inductive WriteContent where
  | binary (buffer : String) (contentType : String) (metaTitle : String)
      (metaUploadTime : Nat)
  | metadataJson (v : VideoMetadata)
deriving DecidableEq, Repr

/-- Everything observable about one call of `uploadVideo`: the returned
record, the sequence of object writes in program order, and the state of
the caller's DTO after the call (the function mutates `metadata.tags`
in place). -/
structure UploadOutcome where
  record : VideoMetadata
  writes : List (String × WriteContent)
  dtoAfter : UploadVideoDto
deriving Repr

/-- The binary storage key template
`videos/{year}/{month}/{fileName}` (the `gcsPath` of `uploadVideo`,
with `month` the padded one-based month). -/
def storageKey (year monthIdx : Nat) (fileName : String) : String :=
  "videos/" ++ toString year ++ "/" ++ pad2 (monthIdx + 1) ++ "/" ++ fileName

/-- The metadata key template
`videos/{year}/{month}/metadata/{safeTitle}.json`. -/
def metadataKey (year monthIdx : Nat) (safeTitle : String) : String :=
  "videos/" ++ toString year ++ "/" ++ pad2 (monthIdx + 1) ++ "/metadata/" ++ safeTitle ++ ".json"

/-- `VideoService.uploadVideo`.  Mutates `metadata.tags` (modelled by
`dtoAfter`), derives the date-partitioned storage key from the sanitized
title, writes the binary object then the metadata JSON object, and
returns the assembled record. -/
def uploadVideo (file : FileUpload) (metadata : UploadVideoDto)
    (now : JsNow) (bucketName : String) : UploadOutcome :=
  let metadata' : UploadVideoDto :=
    { metadata with tags := normalizeTags metadata.tags }
  let safeTitle := sanitizeFileName metadata'.title
  let ext := getFileExtension file.originalname
  let fileName := safeTitle ++ "." ++ ext
  let gcsPath := storageKey now.year now.monthIndex fileName
  let publicUrl := "https://storage.googleapis.com/" ++ bucketName ++ "/" ++ gcsPath
  let videoMetadata : VideoMetadata :=
    { title := metadata'.title
      description := metadata'.description.getD ""
      tags := tagsOrEmpty metadata'.tags
      category := metadata'.category.getD ""
      uploadDate := now.time
      fileSize := file.size
      format := ext
      videoUrl := "gs://" ++ bucketName ++ "/" ++ gcsPath
      publicUrl := publicUrl
      duration := none
      resolution := none
      thumbnailUrl := none }
  let metadataPath := metadataKey now.year now.monthIndex safeTitle
  { record := videoMetadata
    writes :=
      [(gcsPath, .binary file.buffer file.mimetype metadata'.title now.time),
       (metadataPath, .metadataJson videoMetadata)]
    dtoAfter := metadata' }

/-- Contents of one stored object, classified by the outcome of
`JSON.parse` on its bytes: a valid `VideoMetadata` record, or a corrupt
blob together with the message of the `SyntaxError` the parse raises
(that message is a function of the bytes alone; it never mentions the
object's key). -/
inductive Content where
  | valid (v : VideoMetadata)
  | corrupt (msg : String)
deriving DecidableEq, Repr

/-- The object store: keys with their contents, in listing order
(GCS `getFiles` lists lexicographically; the claims do not depend on
the listing order itself, only on its stability). -/
def Store := List (String × Content)

/-- Key comparison used by `getFiles({ prefix })`: GCS prefix listing is
literal — an object is returned iff its name starts with the given
string, wildcards having no special meaning. -/
def strStartsWith (s pre : String) : Bool :=
  pre.data.isPrefixOf s.data

/-- `List` contiguous-sublist test (executable). -/
def listIsInfixOf [BEq α] : List α → List α → Bool
  | sub, [] => sub.isEmpty
  | sub, a :: as => sub.isPrefixOf (a :: as) || listIsInfixOf sub as

/-- JavaScript `s.includes(sub)`. -/
def strIncludes (s sub : String) : Bool :=
  listIsInfixOf sub.data s.data

/-- JavaScript `s.endsWith(suf)`. -/
def strEndsWith (s suf : String) : Bool :=
  suf.data.isSuffixOf s.data

/-- `bucket.getFiles({ prefix })`: the objects whose keys start with the
literal prefix, in listing order. -/
def getFiles (store : Store) (pre : String) : Store :=
  store.filter (fun p => strStartsWith p.1 pre)

/-- The filter applied by `getAllVideos` to the `videos/` listing:
`file.name.includes('/metadata/') && file.name.endsWith('.json')`. -/
def keyIsMetadata (k : String) : Bool :=
  strIncludes k "/metadata/" && strEndsWith k ".json"

/-- The metadata objects scanned by `getAllVideos`, in listing order. -/
def metaFiles (store : Store) : Store :=
  (getFiles store "videos/").filter (fun p => keyIsMetadata p.1)

/-- Contents of the metadata objects, in listing order. -/
def metaContents (store : Store) : List Content :=
  (metaFiles store).map (fun p => p.2)

/-- The download-and-parse loop of `getAllVideos`: each content is
parsed in order; the first `JSON.parse` failure aborts the whole loop,
its error propagating unchanged through the rethrowing catch block. -/
def parseAll : List Content → Except String (List VideoMetadata)
  | [] => .ok []
  | .valid v :: rest => (parseAll rest).map (fun vs => v :: vs)
  | .corrupt m :: _ => .error m

/-- Sort order of `videos.sort((a, b) => time(b) - time(a))`: `a` may
stay before `b` exactly when `b`'s timestamp is not later.  ECMAScript
`Array.prototype.sort` is a stable sort for this total preorder; it is
modelled by Mathlib's (stable) insertion sort. -/
def rDesc (a b : VideoMetadata) : Prop :=
  b.uploadDate ≤ a.uploadDate

instance : DecidableRel rDesc := fun a b => Nat.decLe b.uploadDate a.uploadDate

instance : IsTotal VideoMetadata rDesc :=
  ⟨fun a b => Nat.le_total b.uploadDate a.uploadDate⟩

instance : IsTrans VideoMetadata rDesc :=
  ⟨fun _ _ _ h h' => Nat.le_trans h' h⟩

/-- `VideoService.getAllVideos`: list `videos/`, keep the metadata JSON
keys, download and parse each (aborting on the first parse failure), and
stable-sort the records newest-first. -/
def getAllVideos (store : Store) : Except String (List VideoMetadata) :=
  (parseAll (metaContents store)).map (fun videos => List.insertionSort rDesc videos)

/-- `VideoService.getVideoById`: derives the sanitized title and asks
the store for objects under the literal prefix
`videos/*/metadata/{safeTitle}.json` (the `*` is not interpreted); the
first hit is downloaded and parsed, no hit yields `null`. -/
def getVideoById (title : String) (store : Store) :
    Except String (Option VideoMetadata) :=
  let safeTitle := sanitizeFileName title
  let files := getFiles store ("videos/*/metadata/" ++ safeTitle ++ ".json")
  match files with
  | [] => .ok none
  | (_, .valid v) :: _ => .ok (some v)
  | (_, .corrupt m) :: _ => .error m

/-- Array element swap by destructuring assignment; both indices are in
range whenever the shuffle loop performs it. -/
def listSwap (l : List α) (i j : Nat) : List α :=
  match l[i]?, l[j]? with
  | some a, some b => (l.set i b).set j a
  | _, _ => l

/-- The Fisher–Yates loop of `getRandomVideos`: for `i` from
`length - 1` down to `1`, swap position `i` with a random position
`j ∈ [0, i]`.  `Math.floor(Math.random() * (i + 1))` is modelled by an
arbitrary source `rnd` reduced into range by `% (i + 1)`. -/
def fyAux (rnd : Nat → Nat) (arr : List α) : Nat → List α
  | 0 => arr
  | i + 1 => fyAux rnd (listSwap arr (i + 1) (rnd (i + 1) % (i + 2))) i

/-- The full shuffle of the copied catalog. -/
def fisherYates (rnd : Nat → Nat) (arr : List α) : List α :=
  fyAux rnd arr (arr.length - 1)

/-- JavaScript `l.slice(0, e)`.  A negative end counts from the end of
the array (clamped at `0`); `NaN` (`none`) coerces to `0`. -/
def jsSliceTo (l : List α) : Option Int → List α
  | none => []
  | some i => if i < 0 then l.take (l.length - i.natAbs) else l.take i.toNat

/-- `VideoService.getRandomVideos`: fetch the whole catalog, return `[]`
when it is empty, otherwise shuffle a copy and slice off the first
`Math.min(count, length)` elements.  `count` is a JavaScript number:
`none` models `NaN` (which `Math.min` propagates), `some i` an integer. -/
def getRandomVideos (rnd : Nat → Nat) (count : Option Int) (store : Store) :
    Except String (List VideoMetadata) :=
  (getAllVideos store).map (fun allVideos =>
    if allVideos.isEmpty then []
    else
      jsSliceTo (fisherYates rnd allVideos)
        (count.map (fun c => min c (allVideos.length : Int))))

/-- JavaScript `parseInt(s, 10)`: skip leading whitespace, read an
optional sign and then leading decimal digits; no digits means `NaN`
(modelled as `none`). -/
def jsParseInt (s : String) : Option Int :=
  let cs := s.data.dropWhile isJsSpace
  let signAndRest : Int × List Char :=
    match cs with
    | '-' :: rest => (-1, rest)
    | '+' :: rest => (1, rest)
    | _ => (1, cs)
  let digits := signAndRest.2.takeWhile Char.isDigit
  if digits.isEmpty then none
  else some (signAndRest.1 * (digits.foldl (fun n c => n * 10 + (c.toNat - 48)) 0 : Nat))

/-- `VideoController.getRandomVideos` (route `GET /video/random`):
`const countNum = count ? parseInt(count, 10) : 5` — an absent or empty
(falsy) query value defaults to `5`, anything else goes through
`parseInt` — then the service is called with that number. -/
def controllerGetRandomVideos (rnd : Nat → Nat) (count : Option String)
    (store : Store) : Except String (List VideoMetadata) :=
  let countNum : Option Int :=
    match count with
    | none => some 5
    | some s => if s = "" then some 5 else jsParseInt s
  getRandomVideos rnd countNum store

/-- A concrete record used by the concrete-store theorems (newer of the
two demo records). -/
def demoA : VideoMetadata :=
  { title := "aa", description := "", tags := [], category := ""
    uploadDate := 200, fileSize := 7, format := "mp4"
    videoUrl := "gs://b/videos/2025/07/aa.mp4"
    publicUrl := "https://storage.googleapis.com/b/videos/2025/07/aa.mp4"
    duration := none, resolution := none, thumbnailUrl := none }

/-- A concrete record used by the concrete-store theorems (older of the
two demo records). -/
def demoB : VideoMetadata :=
  { title := "bb", description := "", tags := [], category := ""
    uploadDate := 100, fileSize := 9, format := "mp4"
    videoUrl := "gs://b/videos/2025/06/bb.mp4"
    publicUrl := "https://storage.googleapis.com/b/videos/2025/06/bb.mp4"
    duration := none, resolution := none, thumbnailUrl := none }

/-- A two-video store in the layout produced by `uploadVideo`. -/
def demoStore2 : Store :=
  [("videos/2025/07/metadata/aa.json", .valid demoA),
   ("videos/2025/06/metadata/bb.json", .valid demoB)]

/-- The message of the first `JSON.parse` failure met by the
download-and-parse loop, if any. -/
def firstCorruptMsg : List Content → Option String
  | [] => none
  | .valid _ :: rest => firstCorruptMsg rest
  | .corrupt m :: _ => some m

/-- A concrete record whose title is `cat`, stored under the key the
lookup-by-title wildcard is meant to match. -/
def demoCat : VideoMetadata :=
  { title := "cat", description := "", tags := [], category := ""
    uploadDate := 300, fileSize := 11, format := "mp4"
    videoUrl := "gs://b/videos/2025/07/cat.mp4"
    publicUrl := "https://storage.googleapis.com/b/videos/2025/07/cat.mp4"
    duration := none, resolution := none, thumbnailUrl := none }

/-- A store holding exactly the metadata object for `cat`. -/
def demoCatStore : Store :=
  [("videos/2025/07/metadata/cat.json", .valid demoCat)]

/-- A store whose second metadata object is corrupt. -/
def demoCorruptStore : Store :=
  [("videos/2025/07/metadata/aa.json", .valid demoA),
   ("videos/2025/07/metadata/zz.json", .corrupt "Unexpected token u in JSON at position 0")]

/-- Every character of the whitespace-collapsed list is either the
inserted hyphen or a non-whitespace character of the input. -/
theorem mem_collapseWsAux {c : Char} :
    ∀ {l : List Char} {b : Bool}, c ∈ collapseWsAux b l →
      c = '-' ∨ (c ∈ l ∧ isJsSpace c = false) := by
  intro l
  induction l with
  | nil => intro b h; simp [collapseWsAux] at h
  | cons x xs ih =>
    intro b h
    by_cases hx : isJsSpace x = true
    · cases b with
      | true =>
        simp only [collapseWsAux, hx, if_pos, if_true] at h
        rcases ih h with h' | ⟨hm, hs⟩
        · exact Or.inl h'
        · exact Or.inr ⟨List.mem_cons_of_mem x hm, hs⟩
      | false =>
        simp only [collapseWsAux, hx, if_pos, if_true] at h
        rcases List.mem_cons.mp h with h' | h'
        · exact Or.inl h'
        · rcases ih h' with h'' | ⟨hm, hs⟩
          · exact Or.inl h''
          · exact Or.inr ⟨List.mem_cons_of_mem x hm, hs⟩
    · have hx' : isJsSpace x = false := by
        cases hxv : isJsSpace x
        · rfl
        · exact absurd hxv hx
      simp only [collapseWsAux, hx', Bool.false_eq_true, if_false] at h
      rcases List.mem_cons.mp h with h' | h'
      · exact Or.inr ⟨by simp [h'], by rw [h']; exact hx'⟩
      · rcases ih h' with h'' | ⟨hm, hs⟩
        · exact Or.inl h''
        · exact Or.inr ⟨List.mem_cons_of_mem x hm, hs⟩

/-- Collapsing is the identity on whitespace-free lists. -/
theorem collapseWsAux_eq_self :
    ∀ {l : List Char}, (∀ c ∈ l, isJsSpace c = false) →
      ∀ b, collapseWsAux b l = l := by
  intro l
  induction l with
  | nil => intro _ b; rfl
  | cons x xs ih =>
    intro h b
    have hx : isJsSpace x = false := h x (by simp)
    simp only [collapseWsAux, hx, Bool.false_eq_true, if_false]
    rw [ih (fun c hc => h c (List.mem_cons_of_mem x hc)) false]

/-- An allowed non-whitespace character stays allowed and
non-whitespace under ASCII lower-casing, which is idempotent on it. -/
theorem sanitized_char_props (c : Char) (hA : isAllowedChar c = true)
    (hS : isJsSpace c = false) :
    isAllowedChar (jsLowerChar c) = true ∧ isJsSpace (jsLowerChar c) = false ∧
      jsLowerChar (jsLowerChar c) = jsLowerChar c := by
  by_cases hg : (65 ≤ c.toNat && c.toNat ≤ 90) = true
  · obtain ⟨h1, h2⟩ : 65 ≤ c.toNat ∧ c.toNat ≤ 90 := by simpa using hg
    have hc : jsLowerChar c = Char.ofNat (c.toNat + 32) := by
      simp [jsLowerChar, hg]
    rw [hc]
    clear hc hg hA hS
    generalize c.toNat = n at h1 h2
    interval_cases n <;> decide
  · have hc : jsLowerChar c = c := by simp [jsLowerChar, hg]
    rw [hc]
    exact ⟨hA, hS, hc⟩

/-- Every character of a sanitized title is in the whitelist, is not
whitespace, and is a fixed point of lower-casing. -/
theorem mem_sanitize_props (s : String) :
    ∀ c ∈ (sanitizeFileName s).data,
      isAllowedChar c = true ∧ isJsSpace c = false ∧ jsLowerChar c = c := by
  intro c hc
  obtain ⟨d, hd, rfl⟩ := List.mem_map.mp hc
  rcases mem_collapseWsAux hd with h | ⟨hdm, hds⟩
  · rw [h]; exact ⟨by decide, by decide, by decide⟩
  · have hA : isAllowedChar d = true := List.of_mem_filter hdm
    obtain ⟨p1, p2, p3⟩ := sanitized_char_props d hA hds
    exact ⟨p1, p2, p3⟩

/-- Mapping a function that fixes every element is the identity. -/
theorem list_map_id_of_mem {f : α → α} :
    ∀ {l : List α}, (∀ c ∈ l, f c = c) → l.map f = l := by
  intro l
  induction l with
  | nil => intro _; rfl
  | cons x xs ih =>
    intro h
    simp only [List.map_cons, h x (by simp),
      ih (fun c hc => h c (List.mem_cons_of_mem x hc))]

/-- C8 — Title sanitization is idempotent: sanitizing an
already-sanitized title changes nothing, for every input string. -/
theorem sanitizeFileName_idempotent (s : String) :
    sanitizeFileName (sanitizeFileName s) = sanitizeFileName s := by
  have hprops := mem_sanitize_props s
  have hfilter : (sanitizeFileName s).data.filter isAllowedChar =
      (sanitizeFileName s).data :=
    List.filter_eq_self.mpr (fun c hc => (hprops c hc).1)
  show String.mk
      ((collapseWsAux false ((sanitizeFileName s).data.filter isAllowedChar)).map
        jsLowerChar) = sanitizeFileName s
  rw [hfilter, collapseWsAux_eq_self (fun c hc => (hprops c hc).2.1) false,
    list_map_id_of_mem (fun c hc => (hprops c hc).2.2)]

/-- Inserting an element into a list commutes with filtering by one
timestamp value, up to putting the element in front: elements skipped by
the insertion all have strictly later timestamps, so they cannot share
the timestamp of the inserted element. -/
theorem filter_time_orderedInsert (t : Nat) (x : VideoMetadata) :
    ∀ m : List VideoMetadata,
      (List.orderedInsert rDesc x m).filter (fun v => v.uploadDate == t) =
        (x :: m).filter (fun v => v.uploadDate == t) := by
  intro m
  induction m with
  | nil => rfl
  | cons y m ih =>
    by_cases hr : rDesc x y
    · rw [List.orderedInsert_of_le rDesc m hr]
    · have hins : List.orderedInsert rDesc x (y :: m) =
          y :: List.orderedInsert rDesc x m := by
        simp [List.orderedInsert, hr]
      rw [hins]
      rcases eq_or_ne y.uploadDate t with hy | hy
      · rcases eq_or_ne x.uploadDate t with hx | hx
        · exact absurd (show rDesc x y by simp [rDesc, hy, hx]) hr
        · simp [List.filter_cons, hy, hx, ih]
      · simp [List.filter_cons, hy, ih]

/-- The stable sort preserves, for each timestamp value, the original
relative order of the records carrying it. -/
theorem filter_time_insertionSort (t : Nat) :
    ∀ l : List VideoMetadata,
      (List.insertionSort rDesc l).filter (fun v => v.uploadDate == t) =
        l.filter (fun v => v.uploadDate == t)
  | [] => rfl
  | a :: l => by
    show (List.orderedInsert rDesc a (List.insertionSort rDesc l)).filter _ = _
    rw [filter_time_orderedInsert t a (List.insertionSort rDesc l)]
    simp [List.filter_cons, filter_time_insertionSort t l]

/-- C5 — `getAllVideos` returns the records of exactly the metadata
keys (those under `videos/` containing `/metadata/` and ending in
`.json`): the output is a permutation of the parsed listing, every
adjacent pair is non-increasing in `uploadDate`, and for each timestamp
value the records carrying it appear in original listing order (the
sort is stable). -/
theorem getAllVideos_sorted_stable (store : Store)
    (parsed videos : List VideoMetadata) (t : Nat)
    (hp : parseAll (metaContents store) = .ok parsed)
    (h : getAllVideos store = .ok videos) :
    videos.Perm parsed ∧
      List.Chain' (fun a b => b.uploadDate ≤ a.uploadDate) videos ∧
      videos.filter (fun v => v.uploadDate == t) =
        parsed.filter (fun v => v.uploadDate == t) := by
  have hv : videos = List.insertionSort rDesc parsed := by
    rw [getAllVideos, hp] at h
    simpa [Except.map] using h.symm
  subst hv
  refine ⟨List.perm_insertionSort rDesc parsed, ?_,
    filter_time_insertionSort t parsed⟩
  exact (List.sorted_insertionSort rDesc parsed).chain'

/-- Swapping two positions does not change the length. -/
theorem listSwap_length (l : List α) (i j : Nat) :
    (listSwap l i j).length = l.length := by
  rcases h1 : l[i]? with _ | a <;> rcases h2 : l[j]? with _ | b <;>
    simp [listSwap, h1, h2]

/-- The shuffle loop does not change the length. -/
theorem fyAux_length (rnd : Nat → Nat) :
    ∀ (n : Nat) (arr : List α), (fyAux rnd arr n).length = arr.length := by
  intro n
  induction n with
  | zero => intro arr; rfl
  | succ n ih =>
    intro arr
    rw [fyAux, ih, listSwap_length]

/-- The Fisher–Yates shuffle does not change the length. -/
theorem fisherYates_length (rnd : Nat → Nat) (arr : List α) :
    (fisherYates rnd arr).length = arr.length :=
  fyAux_length rnd (arr.length - 1) arr

/-- Length of `l.slice(0, i)` under JavaScript slice semantics. -/
theorem jsSliceTo_length (l : List α) (i : Int) :
    (jsSliceTo l (some i)).length =
      if i < 0 then l.length - i.natAbs else min i.toNat l.length := by
  rw [jsSliceTo]
  by_cases hi : i < 0
  · simp only [hi, if_true, if_pos, List.length_take]
    omega
  · simp only [hi, if_false, if_neg, List.length_take, Bool.false_eq_true]

/-- C1 (amended) — With the catalog readable, `getRandomVideos` never
errors, and for an integer `count` the returned length is
`min(count, totalAvailable)` when `count ≥ 0` (so `count = 0` yields the
empty sequence and an over-large `count` yields the whole catalog), but
for `count < 0` it is `totalAvailable - |count|` (clamped at `0`), the
JavaScript `slice(0, negative)` semantics — not the empty sequence. -/
theorem getRandomVideos_length (rnd : Nat → Nat) (count : Int) (store : Store)
    (all : List VideoMetadata) (h : getAllVideos store = .ok all) :
    (getRandomVideos rnd (some count) store).map List.length =
      .ok (if count < 0 then all.length - count.natAbs
           else min count.toNat all.length) := by
  rw [getRandomVideos, h]
  simp only [Except.map, Option.map]
  by_cases he : all.isEmpty
  · have hnil : all = [] := by
      cases all
      · rfl
      · simp [List.isEmpty] at he
    subst hnil
    simp only [he, if_true, if_pos, List.length_nil]
    by_cases hc : count < 0 <;> simp [hc, Nat.min_def]
  · simp only [he, Bool.false_eq_true, if_false, if_neg]
    have hL := fisherYates_length rnd all
    rw [jsSliceTo_length, hL]
    have hlen : (0 : Int) ≤ (all.length : Int) := Int.natCast_nonneg _
    by_cases hc : count < 0
    · have hmin : min count (all.length : Int) = count :=
        min_eq_left (le_trans (le_of_lt hc) hlen)
      rw [hmin]
    · have hc' : 0 ≤ count := le_of_not_lt hc
      by_cases hcl : count ≤ (all.length : Int)
      · have hmin : min count (all.length : Int) = count := min_eq_left hcl
        rw [hmin]
      · have hmin : min count (all.length : Int) = (all.length : Int) :=
          min_eq_right (le_of_not_le hcl)
        rw [hmin]
        have h1 : ¬ ((all.length : Int) < 0) := not_lt.mpr hlen
        simp only [h1, if_false, if_neg, Int.toNat_natCast]
        have h2 : all.length ≤ count.toNat := by omega
        simp [Nat.min_def, hc, h2, Nat.le_antisymm]

/-- The parse loop propagates the message of the first corrupt content. -/
theorem parseAll_error_of_firstCorrupt :
    ∀ {cs : List Content} {m : String},
      firstCorruptMsg cs = some m → parseAll cs = .error m := by
  intro cs
  induction cs with
  | nil => intro m h; simp [firstCorruptMsg] at h
  | cons c rest ih =>
    intro m h
    cases c with
    | valid v =>
      rw [firstCorruptMsg] at h
      rw [parseAll, ih h]
      rfl
    | corrupt m' =>
      rw [firstCorruptMsg] at h
      rw [parseAll, Option.some_inj.mp h]

/-- C7 (amended) — When some metadata object under the scan is corrupt,
`getAllVideos` fails as a whole with the parse error of the first
corrupt object propagated unchanged: no partial sequence is returned and
no bad entry is skipped (but the error does not name the offending key). -/
theorem getAllVideos_aborts_on_first_corrupt (store : Store) (m : String)
    (h : firstCorruptMsg (metaContents store) = some m) :
    getAllVideos store = .error m := by
  rw [getAllVideos, parseAll_error_of_firstCorrupt h]
  rfl

/-- C7 witness — a concrete store whose second metadata object is
corrupt makes the whole listing fail with that object's parse error. -/
theorem getAllVideos_aborts_on_first_corrupt_witness :
    getAllVideos demoCorruptStore =
      .error "Unexpected token u in JSON at position 0" :=
  getAllVideos_aborts_on_first_corrupt demoCorruptStore
    "Unexpected token u in JSON at position 0" rfl

/-- C7 counterexample — the failure does not identify the offending
key: two stores whose corrupt objects live under different keys produce
the very same error value, so the error cannot name the key. -/
theorem getAllVideos_parse_error_key_independent :
    getAllVideos [("videos/2025/07/metadata/aa.json",
        .corrupt "Unexpected end of JSON input")] =
      .error "Unexpected end of JSON input" ∧
    getAllVideos [("videos/2025/09/metadata/qq.json",
        .corrupt "Unexpected end of JSON input")] =
      .error "Unexpected end of JSON input" ∧
    ("videos/2025/07/metadata/aa.json" : String) ≠
      "videos/2025/09/metadata/qq.json" :=
  ⟨rfl, rfl, by decide⟩

/-- C1 counterexample — the claim says a non-positive `count` yields
the empty sequence; with the two-video catalog and `count = -1` the
service instead returns one video (`slice(0, -1)` keeps all but the
last element). -/
theorem getRandomVideos_neg_count_nonempty :
    getRandomVideos (fun _ => 0) (some (-1)) demoStore2 = .ok [demoB] ∧
    ([demoB] : List VideoMetadata) ≠ [] :=
  ⟨rfl, by simp⟩

/-- C1 witness — instantiating the length theorem at the two-video
catalog with `count = 3`. -/
theorem getRandomVideos_length_witness :
    (getRandomVideos (fun _ => 0) (some 3) demoStore2).map List.length =
      .ok (if (3 : Int) < 0 then [demoA, demoB].length - (3 : Int).natAbs
           else min (3 : Int).toNat [demoA, demoB].length) :=
  getRandomVideos_length (fun _ => 0) 3 demoStore2 [demoA, demoB] rfl

/-- C4 counterexample — the claim says a non-numeric `count` behaves
like the default `5`; over the two-video catalog the default returns
both videos, while `count=abc` returns the empty array
(`parseInt` gives `NaN`, `Math.min` propagates it, `slice(0, NaN)` is
empty). -/
theorem controller_nonnumeric_count_empty :
    controllerGetRandomVideos (fun _ => 0) (some "abc") demoStore2 = .ok [] ∧
    controllerGetRandomVideos (fun _ => 0) none demoStore2 =
      .ok [demoB, demoA] ∧
    ([] : List VideoMetadata) ≠ [demoB, demoA] :=
  ⟨rfl, rfl, by simp⟩

/-- C4 (amended) — `count` is optional: an absent (or empty, hence
falsy) query value defaults to `5`; but a non-numeric value, for which
`parseInt` yields `NaN`, makes the endpoint return the empty array
whenever the catalog is readable — not the default-5 behavior and not
an error. -/
theorem controller_count_parsing (rnd : Nat → Nat) (store : Store)
    (all : List VideoMetadata) (s : String) (h : getAllVideos store = .ok all)
    (hs : s ≠ "") (hnan : jsParseInt s = none) :
    controllerGetRandomVideos rnd (some s) store = .ok [] ∧
    controllerGetRandomVideos rnd none store =
      getRandomVideos rnd (some 5) store ∧
    controllerGetRandomVideos rnd (some "") store =
      getRandomVideos rnd (some 5) store := by
  refine ⟨?_, rfl, by simp [controllerGetRandomVideos]⟩
  rw [controllerGetRandomVideos]
  simp only [hs, if_neg, hnan]
  rw [getRandomVideos, h]
  simp [Except.map, jsSliceTo]

/-- C4 witness — instantiating the parsing theorem at the two-video
catalog with the non-numeric value `xy`. -/
theorem controller_count_parsing_witness :
    controllerGetRandomVideos (fun _ => 0) (some "xy") demoStore2 = .ok [] ∧
    controllerGetRandomVideos (fun _ => 0) none demoStore2 =
      getRandomVideos (fun _ => 0) (some 5) demoStore2 ∧
    controllerGetRandomVideos (fun _ => 0) (some "") demoStore2 =
      getRandomVideos (fun _ => 0) (some 5) demoStore2 :=
  controller_count_parsing (fun _ => 0) demoStore2 [demoA, demoB] "xy"
    rfl (by decide) rfl

/-- C5 witness — instantiating the listing theorem at the two-video
store (parsed in listing order `[demoA, demoB]`, returned sorted as
`[demoA, demoB]`, timestamp value `200`). -/
theorem getAllVideos_sorted_stable_witness :
    ([demoA, demoB] : List VideoMetadata).Perm [demoA, demoB] ∧
    List.Chain' (fun a b => b.uploadDate ≤ a.uploadDate)
      ([demoA, demoB] : List VideoMetadata) ∧
    ([demoA, demoB] : List VideoMetadata).filter
        (fun v => v.uploadDate == 200) =
      ([demoA, demoB] : List VideoMetadata).filter
        (fun v => v.uploadDate == 200) :=
  getAllVideos_sorted_stable demoStore2 [demoA, demoB] [demoA, demoB] 200
    rfl rfl

/-- C2 counterexample — a purely-symbolic title sanitizes to the empty
string, yet the upload does not fail and does write both objects (under
the degenerate keys `videos/2025/07/.mp4` and
`videos/2025/07/metadata/.json`); there is no `InvalidTitleError` in
the code. -/
theorem uploadVideo_empty_title_writes :
    sanitizeFileName "!!!" = "" ∧
    (uploadVideo ⟨"cat.mp4", "video/mp4", 5, "bytes"⟩ ⟨"!!!", none, none, none⟩
        ⟨2025, 6, 1234⟩ "bucket").writes.map Prod.fst =
      ["videos/2025/07/.mp4", "videos/2025/07/metadata/.json"] :=
  ⟨rfl, rfl⟩

/-- C2 (amended) — A title whose sanitization is empty is not
rejected: the upload proceeds without error and writes the binary
object and the metadata object under keys with an empty sanitized-title
segment. -/
theorem uploadVideo_empty_title_keys (file : FileUpload)
    (dto : UploadVideoDto) (now : JsNow) (bucket : String)
    (h : sanitizeFileName dto.title = "") :
    (uploadVideo file dto now bucket).writes.map Prod.fst =
      [storageKey now.year now.monthIndex
        ("" ++ "." ++ getFileExtension file.originalname),
       metadataKey now.year now.monthIndex ""] := by
  simp [uploadVideo, h]

/-- C2 witness — instantiating the empty-title theorem at a concrete
upload whose title `@@@` sanitizes to the empty string. -/
theorem uploadVideo_empty_title_keys_witness :
    (uploadVideo ⟨"dog.mov", "video/quicktime", 3, "bb"⟩
        ⟨"@@@", none, none, none⟩ ⟨2024, 0, 99⟩ "bkt").writes.map Prod.fst =
      [storageKey 2024 0 ("" ++ "." ++ getFileExtension "dog.mov"),
       metadataKey 2024 0 ""] :=
  uploadVideo_empty_title_keys ⟨"dog.mov", "video/quicktime", 3, "bb"⟩
    ⟨"@@@", none, none, none⟩ ⟨2024, 0, 99⟩ "bkt" rfl

/-- C3 — `getVideoById` hands the literal string
`videos/*/metadata/cat.json` to the prefix-only listing: over a store
that does hold the metadata object for `cat` (under a key of exactly
the wildcard shape `videos/{year}/{month}/metadata/cat.json`), the
listing matches nothing and the lookup returns not-found instead of
the stored record. -/
theorem getVideoById_misses_existing_metadata :
    getVideoById "cat" demoCatStore = .ok none ∧
    "videos/2025/07/metadata/cat.json" =
      "videos/" ++ "2025/07" ++ "/metadata/" ++ sanitizeFileName "cat" ++
        ".json" ∧
    demoCatStore = [("videos/2025/07/metadata/cat.json", .valid demoCat)] ∧
    getFiles demoCatStore
      ("videos/*/metadata/" ++ sanitizeFileName "cat" ++ ".json") = [] :=
  ⟨rfl, rfl, rfl, rfl⟩

/-- Appending strings appends their character data. -/
theorem string_data_append (a b : String) : (a ++ b).data = a.data ++ b.data :=
  rfl

/-- C6 — An upload titled `My Cat! Video` with an `.mp4` file in July
2025 writes the binary object at `videos/2025/07/my-cat-video.mp4` and
the metadata object at `videos/2025/07/metadata/my-cat-video.json`; the
returned record's `format` is `mp4` and its `videoUrl` starts with
`gs://`. -/
theorem uploadVideo_example_keys_format_url (buffer mimetype : String)
    (size time : Nat) (d c : Option String) (tg : Option TagsField)
    (bucket : String) :
    (uploadVideo ⟨"cat.mp4", mimetype, size, buffer⟩
        ⟨"My Cat! Video", d, tg, c⟩ ⟨2025, 6, time⟩ bucket).writes.map
        Prod.fst =
      ["videos/2025/07/my-cat-video.mp4",
       "videos/2025/07/metadata/my-cat-video.json"] ∧
    (uploadVideo ⟨"cat.mp4", mimetype, size, buffer⟩
        ⟨"My Cat! Video", d, tg, c⟩ ⟨2025, 6, time⟩ bucket).record.format =
      "mp4" ∧
    "gs://".data <+:
      (uploadVideo ⟨"cat.mp4", mimetype, size, buffer⟩
        ⟨"My Cat! Video", d, tg, c⟩ ⟨2025, 6, time⟩ bucket).record.videoUrl.data := by
  refine ⟨?_, ?_, ?_⟩
  · simp only [uploadVideo, List.map]
    decide
  · simp only [uploadVideo]
    decide
  · simp only [uploadVideo]
    have hk : storageKey 2025 6
        (sanitizeFileName "My Cat! Video" ++ "." ++
          getFileExtension "cat.mp4") = "videos/2025/07/my-cat-video.mp4" := by
      decide
    rw [hk, string_data_append, string_data_append, string_data_append,
      List.append_assoc, List.append_assoc]
    exact List.prefix_append _ _

/-- C9 — Tags normalization on upload: the single string `a, b ,c`
becomes the record's tags list `[a, b, c]` (segments trimmed, order
preserved), and an already-structured list passes through unchanged. -/
theorem uploadVideo_tags_normalization (file : FileUpload) (now : JsNow)
    (bucket : String) (title : String) (d c : Option String)
    (l : List String) :
    (uploadVideo file ⟨title, d, some (.str "a, b ,c"), c⟩ now
        bucket).record.tags = ["a", "b", "c"] ∧
    (uploadVideo file ⟨title, d, some (.arr l), c⟩ now
        bucket).record.tags = l :=
  ⟨rfl, rfl⟩

/-- C10 counterexample — with `tags` supplied as the empty string the
DTO is not reassigned at all (the empty string is falsy, so the
`typeof` branch is skipped): the caller's `tags` field still holds the
string, not the split-and-trimmed array `[""]`. -/
theorem uploadVideo_empty_string_tags_unchanged :
    (uploadVideo ⟨"cat.mp4", "video/mp4", 5, "bytes"⟩
        ⟨"tt", none, some (.str ""), none⟩ ⟨2025, 6, 1⟩ "bkt").dtoAfter.tags =
      some (.str "") ∧
    (jsSplitChar ',' "").map jsTrim = [""] ∧
    some (TagsField.str "") ≠ some (TagsField.arr [""]) :=
  ⟨rfl, rfl, by simp⟩

/-- C10 (amended) — When the caller supplies `tags` as a nonempty
(truthy) comma-joined string, `uploadVideo` reassigns the caller's own
`tags` field to the split-and-trimmed array (so the caller observes the
normalized array after the call), leaves every other DTO field
unchanged, and the returned record carries the same array; the empty
string, being falsy, is left untouched. -/
theorem uploadVideo_mutates_dto_tags (file : FileUpload)
    (dto : UploadVideoDto) (now : JsNow) (bucket : String) (s : String)
    (ht : dto.tags = some (.str s)) (hs : s ≠ "") :
    (uploadVideo file dto now bucket).dtoAfter =
      { dto with tags := some (.arr ((jsSplitChar ',' s).map jsTrim)) } ∧
    (uploadVideo file dto now bucket).record.tags =
      (jsSplitChar ',' s).map jsTrim := by
  have hnorm : normalizeTags dto.tags =
      some (.arr ((jsSplitChar ',' s).map jsTrim)) := by
    rw [ht]
    simp [normalizeTags, hs]
  constructor
  · show ({ dto with tags := normalizeTags dto.tags } : UploadVideoDto) = _
    rw [hnorm]
  · show tagsOrEmpty (normalizeTags dto.tags) = _
    rw [hnorm]
    rfl

/-- C10 witness — instantiating the mutation theorem at a concrete
upload with `tags` equal to the string `x, y`. -/
theorem uploadVideo_mutates_dto_tags_witness :
    (uploadVideo ⟨"cat.mp4", "video/mp4", 5, "bytes"⟩
        ⟨"tt", none, some (.str "x, y"), none⟩ ⟨2025, 6, 1⟩ "bkt").dtoAfter =
      { title := "tt", description := none
        tags := some (.arr ((jsSplitChar ',' "x, y").map jsTrim))
        category := none } ∧
    (uploadVideo ⟨"cat.mp4", "video/mp4", 5, "bytes"⟩
        ⟨"tt", none, some (.str "x, y"), none⟩ ⟨2025, 6, 1⟩ "bkt").record.tags =
      (jsSplitChar ',' "x, y").map jsTrim :=
  uploadVideo_mutates_dto_tags ⟨"cat.mp4", "video/mp4", 5, "bytes"⟩
    ⟨"tt", none, some (.str "x, y"), none⟩ ⟨2025, 6, 1⟩ "bkt" "x, y" rfl
    (by decide)

end ShortForm
